import Mathlib

/-!
Shallow embedding of the anonymous-chat coordination core
(`anonymous-chat/backend/server.js`): session registry, message store,
vote ledger and the broadcast events the socket handlers emit.

The JavaScript handlers are translated as follows: in-memory mutable state
(`messages`, `users`) becomes a `ServerState` record threaded through the
handlers; `users` (a JS `Map`) becomes an association list with `Map.set`,
`Map.get`, `Map.delete` semantics; `message.voters` (a JS `Set`) becomes a
`List String` grown only when membership fails, mirroring the guarded
`voters.add` in the source; nondeterministic inputs of the environment
(socket ids, uuids, timestamps, generated usernames) become explicit
parameters. Every `socket.emit` / `io.emit` call becomes an element of the
returned event list, in program order.
-/

namespace AnonChat

/-- One registry entry, as built at connect time:
`users.set(socket.id, { username, joinedAt: new Date() })`. -/
structure User where
  username : String
  joinedAt : Nat
deriving Repr, DecidableEq

/-- One chat message, as built in the `send_message` handler:
`{ id: uuidv4(), text: data.text, username: user.username, timestamp: new Date(),
votes: 0, voters: new Set() }`.  `text` is an `Option` because `data.text` may be
absent (`undefined`) — the handler stores it without validation. -/
structure Message where
  id : String
  text : Option String
  username : String
  timestamp : Nat
  votes : Int
  voters : List String
deriving Repr, DecidableEq

/-- The server's whole mutable state: `let messages = []` and
`let users = new Map()`. -/
structure ServerState where
  messages : List Message
  users : List (String × User)
deriving Repr, DecidableEq

/-- `users.get(k)`. -/
def usersGet (us : List (String × User)) (k : String) : Option User :=
  (us.find? (fun p => p.1 == k)).map Prod.snd

/-- `users.set(k, v)`: overwrite if the key is present, else insert at the end. -/
def usersSet (us : List (String × User)) (k : String) (v : User) :
    List (String × User) :=
  if us.any (fun p => p.1 == k) then
    us.map (fun p => if p.1 == k then (k, v) else p)
  else us ++ [(k, v)]

/-- `users.delete(k)`: remove the entry with key `k` (at most one exists in a
map), no-op when absent. -/
def usersDelete : List (String × User) → String → List (String × User)
  | [], _ => []
  | p :: rest, k => if p.1 == k then rest else p :: usersDelete rest k

/-- Destination of one emitted event: `socket.emit` goes to a single socket,
`io.emit` is a broadcast to everyone. -/
inductive Target where
  | socket (sid : String)
  | all
deriving Repr, DecidableEq

/-- The events the server emits, with their payloads. -/
inductive Event where
  | initial_messages (msgs : List Message)
  | username_assigned (name : String)
  | user_count (n : Nat)
  | new_message (m : Message)
  | message_updated (messageId : String) (votes : Int) (voters : List String)
deriving Repr, DecidableEq

/-- The `io.on('connection', ...)` body before any per-socket handler runs:
register the socket with a generated username, send it the current messages
and its username, broadcast the user count.  `username` and `now` stand for
`generateAnonymousName()` and `new Date()`. -/
def connectionHandler (st : ServerState) (socketId username : String)
    (now : Nat) : ServerState × List (Target × Event) :=
  let users2 := usersSet st.users socketId { username := username, joinedAt := now }
  ({ st with users := users2 },
   [(Target.socket socketId, Event.initial_messages st.messages),
    (Target.socket socketId, Event.username_assigned username),
    (Target.all, Event.user_count users2.length)])

/-- The `socket.on('send_message', ...)` handler.  `freshId` and `now` stand
for `uuidv4()` and `new Date()`.  Unknown senders are dropped (`if (!user)
return`); otherwise the message is appended, the store is trimmed to its last
100 entries (`messages.slice(-100)`) and `new_message` is broadcast. -/
def send_message (st : ServerState) (socketId : String) (text : Option String)
    (freshId : String) (now : Nat) : ServerState × List (Target × Event) :=
  match usersGet st.users socketId with
  | none => (st, [])
  | some user =>
    let message : Message :=
      { id := freshId, text := text, username := user.username,
        timestamp := now, votes := 0, voters := [] }
    let msgs1 := st.messages ++ [message]
    let msgs2 := if msgs1.length > 100 then msgs1.drop (msgs1.length - 100) else msgs1
    ({ st with messages := msgs2 }, [(Target.all, Event.new_message message)])

/-- The vote bookkeeping applied to the located message in the
`vote_message` handler: the `hasVoted` check followed by the
`voteType === 'up'` / `'down'` branches. -/
def applyVote (message : Message) (userId : String) (voteType : String) :
    Message :=
  let hasVoted := message.voters.contains userId
  if voteType == "up" && !hasVoted then
    { message with votes := message.votes + 1, voters := message.voters ++ [userId] }
  else if voteType == "down" && !hasVoted then
    { message with votes := message.votes - 1, voters := message.voters ++ [userId] }
  else message

/-- In-place mutation of the element `messages.find(...)` located: apply `f`
to the first element whose id matches, keep everything else. -/
def updateFirst {α : Type} (idOf : α → String) (mid : String) (f : α → α) :
    List α → List α
  | [] => []
  | m :: rest =>
    if idOf m == mid then f m :: rest else m :: updateFirst idOf mid f rest

/-- The `socket.on('vote_message', ...)` handler: locate the message by id
(drop the event when absent), apply the vote, then unconditionally broadcast
`message_updated` with the (possibly unchanged) votes and voters. -/
def vote_message (st : ServerState) (socketId messageId voteType : String) :
    ServerState × List (Target × Event) :=
  match st.messages.find? (fun m => m.id == messageId) with
  | none => (st, [])
  | some message =>
    let updated := applyVote message socketId voteType
    ({ st with
        messages := updateFirst (fun m => m.id) messageId
          (fun m => applyVote m socketId voteType) st.messages },
     [(Target.all,
       Event.message_updated updated.id updated.votes updated.voters)])

/-- The `socket.on('disconnect', ...)` handler: deregister the socket and
broadcast the new user count. -/
def disconnectHandler (st : ServerState) (socketId : String) :
    ServerState × List (Target × Event) :=
  let users2 := usersDelete st.users socketId
  ({ st with users := users2 }, [(Target.all, Event.user_count users2.length)])

/-- One inbound event of the environment, with the nondeterministic values
(generated username, uuid, timestamp) it carries. -/
inductive Ev where
  | connect (sid username : String) (now : Nat)
  | sendMsg (sid : String) (text : Option String) (freshId : String) (now : Nat)
  | voteMsg (sid messageId voteType : String)
  | disconnect (sid : String)
deriving Repr, DecidableEq

/-- Dispatch one inbound event to its handler. -/
def step (st : ServerState) : Ev → ServerState × List (Target × Event)
  | .connect sid name now => connectionHandler st sid name now
  | .sendMsg sid t f n => send_message st sid t f n
  | .voteMsg sid mid vt => vote_message st sid mid vt
  | .disconnect sid => disconnectHandler st sid

/-- The state after one inbound event, discarding the emissions. -/
def stepState (st : ServerState) (e : Ev) : ServerState := (step st e).1

/-- The state at process start: `let messages = []; let users = new Map()`. -/
def initState : ServerState := { messages := [], users := [] }

/-- The state reached by a trace of inbound events (the server is
single-threaded: events are processed one at a time, in order). -/
def run (es : List Ev) : ServerState := es.foldl stepState initState

/-!
Ghost-instrumented semantics for the score invariant: the real server keeps
only the net `votes` and the `voters` set, so "number of accepted up-votes"
is not part of its state.  `GMessage` carries the same message plus two ghost
counters `ups`/`downs`, incremented exactly where the handler increments or
decrements `votes`.  The instrumented run projects onto the real run
(`grun_proj`), so invariants proved on it are statements about the server.
-/

/-- A message together with ghost counters of the accepted up- and
down-votes on it. -/
structure GMessage where
  msg : Message
  ups : Nat
  downs : Nat
deriving Repr, DecidableEq

/-- `applyVote` with the ghost counters maintained alongside. -/
def gApplyVote (gm : GMessage) (userId : String) (voteType : String) :
    GMessage :=
  let hasVoted := gm.msg.voters.contains userId
  if voteType == "up" && !hasVoted then
    { msg := { gm.msg with votes := gm.msg.votes + 1, voters := gm.msg.voters ++ [userId] }, ups := gm.ups + 1, downs := gm.downs }
  else if voteType == "down" && !hasVoted then
    { msg := { gm.msg with votes := gm.msg.votes - 1, voters := gm.msg.voters ++ [userId] }, ups := gm.ups, downs := gm.downs + 1 }
  else gm

/-- Instrumented server state. -/
structure GState where
  gmessages : List GMessage
  users : List (String × User)
deriving Repr, DecidableEq

/-- Instrumented `send_message` (a fresh message has both counters 0). -/
def gSend (st : GState) (socketId : String) (text : Option String)
    (freshId : String) (now : Nat) : GState :=
  match usersGet st.users socketId with
  | none => st
  | some user =>
    let gm : GMessage :=
      { msg := { id := freshId, text := text, username := user.username,
                 timestamp := now, votes := 0, voters := [] },
        ups := 0, downs := 0 }
    let msgs1 := st.gmessages ++ [gm]
    { st with gmessages :=
        if msgs1.length > 100 then msgs1.drop (msgs1.length - 100) else msgs1 }

/-- Instrumented `vote_message`. -/
def gVote (st : GState) (socketId messageId voteType : String) : GState :=
  match st.gmessages.find? (fun gm => gm.msg.id == messageId) with
  | none => st
  | some _ =>
    { st with gmessages := updateFirst (fun gm => gm.msg.id) messageId (fun gm => gApplyVote gm socketId voteType) st.gmessages }

/-- Instrumented dispatch. -/
def gStepState (st : GState) : Ev → GState
  | .connect sid name now =>
    { st with users := usersSet st.users sid { username := name, joinedAt := now } }
  | .sendMsg sid t f n => gSend st sid t f n
  | .voteMsg sid mid vt => gVote st sid mid vt
  | .disconnect sid => { st with users := usersDelete st.users sid }

/-- Instrumented run from the empty state. -/
def grun (es : List Ev) : GState :=
  es.foldl gStepState { gmessages := [], users := [] }

/-- Projection of an instrumented state onto a real server state. -/
def GState.proj (g : GState) : ServerState :=
  { messages := g.gmessages.map GMessage.msg, users := g.users }

/-- Checks that a trace is transport-fresh from a given state: every
`connect` carries a socket id not currently registered (the transport issues
a globally unique id per connection). -/
def freshOk : ServerState → List Ev → Bool
  | _, [] => true
  | st, e :: rest =>
    (match e with
     | Ev.connect sid _ _ => (usersGet st.users sid).isNone
     | _ => true) && freshOk (stepState st e) rest

/-- Remove the first occurrence of a string from a list. -/
def removeFirst : List String → String → List String
  | [], _ => []
  | x :: rest, k => if x == k then rest else x :: removeFirst rest k

/-- Account of the register calls not yet matched by a deregister of the
same session id: a connect adds its id, a disconnect matches (removes) one
earlier register of its id, message and vote events change nothing. -/
def pendingRegs (acc : List String) : Ev → List String
  | Ev.connect sid _ _ => acc ++ [sid]
  | Ev.disconnect sid => removeFirst acc sid
  | _ => acc

/-- The unmatched registers of a whole trace. -/
def pending (es : List Ev) : List String := es.foldl pendingRegs []

/-- The message object the `send_message` handler constructs for author
`user`, payload text `t`, generated uuid `f` and timestamp `n` (named here
so that statements about the handler can refer to it). -/
def newMessage (user : User) (t : Option String) (f : String) (n : Nat) :
    Message :=
  { id := f, text := t, username := user.username, timestamp := n,
    votes := 0, voters := [] }

/-- A plain test message with a given id, used by the concrete witnesses. -/
def testMsg (i : String) : Message :=
  { id := i, text := some "t", username := "SilentGuest1", timestamp := 0,
    votes := 0, voters := [] }

/-- A store holding exactly 100 messages with ids "0" .. "99". -/
def fullStore : List Message := (List.range 100).map (fun i => testMsg (toString i))

/-- A server state at capacity, with one registered user. -/
def stFull : ServerState :=
  { messages := fullStore,
    users := [("s1", { username := "SilentGuest1", joinedAt := 0 })] }

/-- A message that socket "s2" has already up-voted. -/
def votedMsg : Message :=
  { id := "m1", text := some "hello", username := "MaskedSoul7", timestamp := 0,
    votes := 1, voters := ["s2"] }

/-- A state holding only `votedMsg`. -/
def stVoted : ServerState := { messages := [votedMsg], users := [] }

/-- A one-message state with one registered user. -/
def stOne : ServerState :=
  { messages := [testMsg "m1"],
    users := [("s1", { username := "SilentGuest1", joinedAt := 0 })] }

/-- A concrete trace: connect, post a message, self-vote it up. -/
def esC1 : List Ev :=
  [Ev.connect "s1" "GhostUser1" 0, Ev.sendMsg "s1" (some "hi") "m1" 1,
   Ev.voteMsg "s1" "m1" "up"]

/-- The instrumented message `esC1` produces. -/
def gmW : GMessage :=
  { msg := { id := "m1", text := some "hi", username := "GhostUser1",
             timestamp := 1, votes := 1, voters := ["s1"] },
    ups := 1, downs := 0 }

/-- A concrete registry trace: two connects, a disconnect, and a repeated
(unmatched) disconnect. -/
def esW : List Ev :=
  [Ev.connect "a" "GhostSoul1" 0, Ev.connect "b" "VeiledBeing2" 1,
   Ev.disconnect "a", Ev.disconnect "a"]

section Lemmas

/-- Dropping the ghost counters from `gApplyVote` gives back `applyVote`. -/
theorem gApplyVote_msg (gm : GMessage) (u vt : String) :
    (gApplyVote gm u vt).msg = applyVote gm.msg u vt := by
  simp only [gApplyVote, applyVote]
  split
  · rfl
  · split <;> rfl

/-- `find?` over a mapped list. -/
theorem find?_map_eq {α β : Type} (f : α → β) (p : β → Bool) (l : List α) :
    (l.map f).find? p = (l.find? (fun a => p (f a))).map f := by
  induction l with
  | nil => rfl
  | cons x xs ih =>
    by_cases h : p (f x)
    · simp [List.find?, h]
    · simp [List.find?, h, ih]

/-- `updateFirst` commutes with a projection that is compatible with the
id function and the update function. -/
theorem updateFirst_map {α β : Type} (proj : α → β) (idA : α → String)
    (idB : β → String) (mid : String) (f : α → α) (g : β → β)
    (hid : ∀ a, idB (proj a) = idA a) (hf : ∀ a, proj (f a) = g (proj a)) :
    (l : List α) →
    (updateFirst idA mid f l).map proj = updateFirst idB mid g (l.map proj)
  | [] => rfl
  | x :: xs => by
    by_cases h : idA x == mid
    · simp [updateFirst, h, hid, hf]
    · simp [updateFirst, h, hid,
        updateFirst_map proj idA idB mid f g hid hf xs]

/-- One instrumented step projects onto one real step. -/
theorem gStepState_proj (g : GState) (e : Ev) :
    (gStepState g e).proj = stepState g.proj e := by
  cases e with
  | connect sid name now =>
    simp [gStepState, stepState, step, connectionHandler, GState.proj]
  | sendMsg sid t f n =>
    simp only [gStepState, stepState, step, gSend, send_message, GState.proj]
    cases usersGet g.users sid with
    | none => rfl
    | some user =>
      simp only [List.length_append, List.length_map, List.length_singleton]
      by_cases h : g.gmessages.length + 1 > 100
      · simp [h, List.map_drop, List.map_append]
      · simp [h, List.map_append]
  | voteMsg sid mid vt =>
    simp only [gStepState, stepState, step, gVote, vote_message, GState.proj]
    rw [find?_map_eq]
    cases hfind : g.gmessages.find? (fun gm => gm.msg.id == mid) with
    | none => rfl
    | some gm =>
      simp only [Option.map_some]
      rw [updateFirst_map GMessage.msg (fun gm => gm.msg.id) (fun m => m.id) mid
        (fun gm => gApplyVote gm sid vt) (fun m => applyVote m sid vt)
        (fun _ => rfl) (fun a => gApplyVote_msg a sid vt)]
      rfl
  | disconnect sid =>
    simp [gStepState, stepState, step, disconnectHandler, GState.proj]

/-- The instrumented run projects onto the real run. -/
theorem grun_proj (es : List Ev) : (grun es).proj = run es := by
  suffices h : ∀ g : GState,
      (es.foldl gStepState g).proj = es.foldl stepState g.proj by
    exact h { gmessages := [], users := [] }
  induction es with
  | nil => intro g; rfl
  | cons e rest ih =>
    intro g
    simp only [List.foldl_cons, ih, gStepState_proj]

/-- The per-message ghost invariant: the net score is ups minus downs and
the voters set has one element per accepted vote. -/
def GInv (gm : GMessage) : Prop :=
  gm.msg.votes = (gm.ups : Int) - (gm.downs : Int) ∧
  gm.msg.voters.length = gm.ups + gm.downs

/-- `gApplyVote` preserves the ghost invariant. -/
theorem gApplyVote_GInv (gm : GMessage) (u vt : String) (h : GInv gm) :
    GInv (gApplyVote gm u vt) := by
  obtain ⟨h1, h2⟩ := h
  simp only [gApplyVote, GInv]
  split
  · constructor
    · show gm.msg.votes + 1 = ((gm.ups + 1 : Nat) : Int) - (gm.downs : Int)
      rw [h1]; push_cast; ring
    · show (gm.msg.voters ++ [u]).length = (gm.ups + 1) + gm.downs
      simp only [List.length_append, List.length_singleton, h2]; omega
  · split
    · constructor
      · show gm.msg.votes - 1 = (gm.ups : Int) - ((gm.downs + 1 : Nat) : Int)
        rw [h1]; push_cast; ring
      · show (gm.msg.voters ++ [u]).length = gm.ups + (gm.downs + 1)
        simp only [List.length_append, List.length_singleton, h2]; omega
    · exact ⟨h1, h2⟩

/-- Every element of `updateFirst` is an original element or the image of
one under `f`. -/
theorem mem_updateFirst {α : Type} (idOf : α → String) (mid : String)
    (f : α → α) (l : List α) :
    ∀ x ∈ updateFirst idOf mid f l, x ∈ l ∨ ∃ y ∈ l, x = f y := by
  induction l with
  | nil => intro x hx; cases hx
  | cons a as ih =>
    intro x hx
    by_cases h : idOf a == mid
    · simp only [updateFirst, h, if_true] at hx
      rcases List.mem_cons.mp hx with hx | hx
      · exact Or.inr ⟨a, List.mem_cons_self a as, hx⟩
      · exact Or.inl (List.mem_cons_of_mem a hx)
    · simp only [updateFirst, h, Bool.false_eq_true, if_false] at hx
      rcases List.mem_cons.mp hx with hx | hx
      · exact Or.inl (hx ▸ List.mem_cons_self a as)
      · rcases ih x hx with h1 | ⟨y, hy, hxy⟩
        · exact Or.inl (List.mem_cons_of_mem a h1)
        · exact Or.inr ⟨y, List.mem_cons_of_mem a hy, hxy⟩

/-- Every message in every reachable instrumented state satisfies the ghost
invariant. -/
theorem grun_GInv (es : List Ev) :
    ∀ gm ∈ (grun es).gmessages, GInv gm := by
  suffices h : ∀ g : GState, (∀ gm ∈ g.gmessages, GInv gm) →
      ∀ gm ∈ (es.foldl gStepState g).gmessages, GInv gm by
    exact h { gmessages := [], users := [] } (by intro gm hgm; cases hgm)
  induction es with
  | nil => intro g hg; exact hg
  | cons e rest ih =>
    intro g hg
    refine ih (gStepState g e) ?_
    intro gm hgm
    cases e with
    | connect sid name now => exact hg gm hgm
    | sendMsg sid t f n =>
      simp only [gStepState, gSend] at hgm
      cases husers : usersGet g.users sid with
      | none => rw [husers] at hgm; exact hg gm hgm
      | some user =>
        rw [husers] at hgm
        simp only at hgm
        by_cases hlen : (g.gmessages.length + 1 > 100)
        · simp only [List.length_append, List.length_singleton, hlen,
            if_pos] at hgm
          have hgm2 := List.mem_of_mem_drop hgm
          rcases List.mem_append.mp hgm2 with h1 | h1
          · exact hg gm h1
          · rcases List.mem_singleton.mp h1 with rfl
            exact ⟨rfl, rfl⟩
        · simp only [List.length_append, List.length_singleton, hlen,
            if_neg, not_false_iff] at hgm
          rcases List.mem_append.mp hgm with h1 | h1
          · exact hg gm h1
          · rcases List.mem_singleton.mp h1 with rfl
            exact ⟨rfl, rfl⟩
    | voteMsg sid mid vt =>
      simp only [gStepState, gVote] at hgm
      cases hfind : g.gmessages.find? (fun x => x.msg.id == mid) with
      | none => rw [hfind] at hgm; exact hg gm hgm
      | some found =>
        rw [hfind] at hgm
        simp only at hgm
        rcases mem_updateFirst _ _ _ _ gm hgm with h1 | ⟨y, hy, rfl⟩
        · exact hg gm h1
        · exact gApplyVote_GInv y sid vt (hg y hy)
    | disconnect sid => exact hg gm hgm

/-- A voter already recorded in `voters` leaves the message unchanged,
whatever the direction. -/
theorem applyVote_of_mem (m : Message) (u vt : String) (h : u ∈ m.voters) :
    applyVote m u vt = m := by
  simp [applyVote, h]

/-- An unrecognized vote direction leaves the message unchanged. -/
theorem applyVote_of_invalid (m : Message) (u vt : String)
    (h1 : vt ≠ "up") (h2 : vt ≠ "down") : applyVote m u vt = m := by
  simp [applyVote, h1, h2]

/-- Accepted up-vote: increment the score, record the voter. -/
theorem applyVote_up (m : Message) (u : String) (h : u ∉ m.voters) :
    applyVote m u "up" =
      { m with votes := m.votes + 1, voters := m.voters ++ [u] } := by
  simp [applyVote, h]

/-- Accepted down-vote: decrement the score, record the voter. -/
theorem applyVote_down (m : Message) (u : String) (h : u ∉ m.voters) :
    applyVote m u "down" =
      { m with votes := m.votes - 1, voters := m.voters ++ [u] } := by
  simp [applyVote, h]

/-- The voters set never shrinks under `applyVote`. -/
theorem mem_applyVote_voters (m : Message) (x u vt : String)
    (h : x ∈ m.voters) : x ∈ (applyVote m u vt).voters := by
  simp only [applyVote]
  split
  · exact List.mem_append_left _ h
  · split
    · exact List.mem_append_left _ h
    · exact h

/-- After a vote with a recognized direction, the voter is recorded. -/
theorem self_mem_applyVote (m : Message) (u vt : String)
    (hdir : vt = "up" ∨ vt = "down") :
    u ∈ (applyVote m u vt).voters := by
  by_cases h : u ∈ m.voters
  · exact mem_applyVote_voters m u u vt h
  · rcases hdir with rfl | rfl
    · rw [applyVote_up m u h]
      exact List.mem_append_right _ (List.mem_singleton.mpr rfl)
    · rw [applyVote_down m u h]
      exact List.mem_append_right _ (List.mem_singleton.mpr rfl)

/-- Recorded voters survive any interleaved sequence of further votes. -/
theorem mem_foldl_applyVote_voters (later : List (String × String))
    (m : Message) (x : String) (h : x ∈ m.voters) :
    x ∈ (later.foldl (fun acc p => applyVote acc p.1 p.2) m).voters := by
  induction later generalizing m with
  | nil => exact h
  | cons p rest ih => exact ih _ (mem_applyVote_voters m x p.1 p.2 h)

/-- `updateFirst` is the identity when `f` fixes the element `find?`
locates. -/
theorem updateFirst_of_find?_fix (mid : String) (f : Message → Message)
    (l : List Message) (m : Message)
    (hfind : l.find? (fun x => x.id == mid) = some m) (hf : f m = m) :
    updateFirst (fun x => x.id) mid f l = l := by
  induction l with
  | nil => cases hfind
  | cons a as ih =>
    cases hbeq : (a.id == mid) with
    | true =>
      simp only [List.find?_cons, hbeq] at hfind
      obtain rfl : a = m := by injection hfind
      simp [updateFirst, hbeq, hf]
    | false =>
      simp only [List.find?_cons, hbeq] at hfind
      simp [updateFirst, hbeq, ih hfind]

/-- A vote on an id `find` cannot locate is dropped: no state change, no
emission. -/
theorem vote_message_of_find?_none (st : ServerState) (u mid vt : String)
    (h : st.messages.find? (fun m => m.id == mid) = none) :
    vote_message st u mid vt = (st, []) := by
  simp [vote_message, h]

/-- When the vote leaves the located message unchanged, the whole handler
leaves the state unchanged but still broadcasts the untouched values. -/
theorem vote_message_of_fix (st : ServerState) (u mid vt : String)
    (m : Message)
    (hfind : st.messages.find? (fun x => x.id == mid) = some m)
    (hf : applyVote m u vt = m) :
    vote_message st u mid vt =
      (st, [(Target.all, Event.message_updated m.id m.votes m.voters)]) := by
  simp only [vote_message, hfind]
  rw [updateFirst_of_find?_fix mid _ st.messages m hfind hf, hf]

/-- A send from an unregistered socket is dropped: no state change, no
emission. -/
theorem send_message_of_none (st : ServerState) (sid : String)
    (t : Option String) (f : String) (n : Nat)
    (h : usersGet st.users sid = none) :
    send_message st sid t f n = (st, []) := by
  simp [send_message, h]

/-- The full effect of a send from a registered socket. -/
theorem send_message_of_some (st : ServerState) (sid : String) (user : User)
    (t : Option String) (f : String) (n : Nat)
    (h : usersGet st.users sid = some user) :
    send_message st sid t f n =
      ({ st with messages := if st.messages.length + 1 > 100 then (st.messages ++ [newMessage user t f n]).drop (st.messages.length + 1 - 100) else st.messages ++ [newMessage user t f n] },
       [(Target.all, Event.new_message (newMessage user t f n))]) := by
  simp [send_message, newMessage, h]

/-- `updateFirst` preserves the length of the list. -/
theorem length_updateFirst {α : Type} (idOf : α → String) (mid : String)
    (f : α → α) (l : List α) :
    (updateFirst idOf mid f l).length = l.length := by
  induction l with
  | nil => rfl
  | cons a as ih =>
    by_cases h : idOf a == mid <;> simp [updateFirst, h, ih]

/-- One step never pushes the store beyond 100 messages. -/
theorem stepState_messages_length_le (st : ServerState) (e : Ev)
    (h : st.messages.length ≤ 100) :
    (stepState st e).messages.length ≤ 100 := by
  cases e with
  | connect sid name now => exact h
  | sendMsg sid t f n =>
    simp only [stepState, step, send_message]
    cases usersGet st.users sid with
    | none => exact h
    | some user =>
      simp only [List.length_append, List.length_singleton]
      by_cases hlen : st.messages.length + 1 > 100
      · simp only [hlen, if_true, List.length_drop, List.length_append,
          List.length_singleton]
        omega
      · simp only [hlen, if_false, List.length_append, List.length_singleton]
        omega
  | voteMsg sid mid vt =>
    simp only [stepState, step, vote_message]
    cases hfind : st.messages.find? (fun m => m.id == mid) with
    | none => exact h
    | some m =>
      simpa only [length_updateFirst] using h
  | disconnect sid => exact h

/-- The store of any reachable state holds at most 100 messages. -/
theorem run_messages_length_le (es : List Ev) :
    (run es).messages.length ≤ 100 := by
  suffices hgen : ∀ st : ServerState, st.messages.length ≤ 100 →
      (es.foldl stepState st).messages.length ≤ 100 by
    exact hgen initState (by simp [initState])
  induction es with
  | nil => intro st h; exact h
  | cons e rest ih =>
    intro st h
    exact ih (stepState st e) (stepState_messages_length_le st e h)

/-- `send_message` never touches the registry. -/
theorem send_message_users (st : ServerState) (sid : String)
    (t : Option String) (f : String) (n : Nat) :
    (send_message st sid t f n).1.users = st.users := by
  simp only [send_message]
  cases usersGet st.users sid <;> rfl

/-- `vote_message` never touches the registry. -/
theorem vote_message_users (st : ServerState) (u mid vt : String) :
    (vote_message st u mid vt).1.users = st.users := by
  simp only [vote_message]
  cases st.messages.find? (fun m => m.id == mid) <;> rfl

/-- `vote_message` reads and writes only the message store: states agreeing
on `messages` produce the same store and the same emissions. -/
theorem vote_message_congr (st1 st2 : ServerState) (u mid vt : String)
    (h : st1.messages = st2.messages) :
    (vote_message st1 u mid vt).1.messages =
      (vote_message st2 u mid vt).1.messages ∧
    (vote_message st1 u mid vt).2 = (vote_message st2 u mid vt).2 := by
  simp only [vote_message, h]
  cases st2.messages.find? (fun m => m.id == mid) with
  | none => exact ⟨h, rfl⟩
  | some m => exact ⟨rfl, rfl⟩

/-- Keys of `usersDelete` are the keys with the first occurrence of the
deleted key removed. -/
theorem usersDelete_keys (us : List (String × User)) (k : String) :
    (usersDelete us k).map Prod.fst = removeFirst (us.map Prod.fst) k := by
  induction us with
  | nil => rfl
  | cons p rest ih =>
    by_cases h : p.1 == k <;> simp [usersDelete, removeFirst, h, ih]

/-- Deleting an absent key is a no-op. -/
theorem usersDelete_of_absent (us : List (String × User)) (k : String)
    (h : usersGet us k = none) : usersDelete us k = us := by
  induction us with
  | nil => rfl
  | cons p rest ih =>
    simp only [usersGet, List.find?_cons] at h
    cases hbeq : (p.1 == k) with
    | true => rw [hbeq] at h; simp at h
    | false =>
      rw [hbeq] at h
      simp only [usersDelete, hbeq, Bool.false_eq_true, if_false]
      rw [ih]
      simp only [usersGet]
      exact h

/-- Deleting a key keeps every entry with a different key. -/
theorem mem_usersDelete_of_ne (us : List (String × User)) (k : String)
    (p : String × User) (hp : p ∈ us) (hne : p.1 ≠ k) :
    p ∈ usersDelete us k := by
  induction us with
  | nil => cases hp
  | cons q rest ih =>
    by_cases h : q.1 == k
    · simp only [usersDelete, h, if_true]
      rcases List.mem_cons.mp hp with rfl | hp2
      · exact absurd (by simpa using h) hne
      · exact hp2
    · simp only [usersDelete, h, Bool.false_eq_true, if_false]
      rcases List.mem_cons.mp hp with rfl | hp2
      · exact List.mem_cons_self _ _
      · exact List.mem_cons_of_mem _ (ih hp2)

/-- Setting an absent key appends the new entry. -/
theorem usersSet_of_absent (us : List (String × User)) (k : String) (v : User)
    (h : usersGet us k = none) : usersSet us k v = us ++ [(k, v)] := by
  have hfind : us.find? (fun p => p.1 == k) = none := by
    unfold usersGet at h
    exact Option.map_eq_none'.mp h
  have hany : us.any (fun p => p.1 == k) = false := by
    cases hA : us.any (fun p => p.1 == k) with
    | false => rfl
    | true =>
      obtain ⟨p, hp, hpk⟩ := List.any_eq_true.mp hA
      have hno := List.find?_eq_none.mp hfind p hp
      exact absurd hpk hno
  simp [usersSet, hany]

/-- `find?` by id fails when the id is absent from the mapped ids. -/
theorem find?_id_eq_none (l : List Message) (mid : String)
    (h : mid ∉ l.map Message.id) :
    l.find? (fun m => m.id == mid) = none := by
  rw [List.find?_eq_none]
  intro m hm
  simp only [beq_iff_eq]
  intro heq
  exact h (heq ▸ List.mem_map_of_mem Message.id hm)

/-- Along a transport-fresh trace, the registry keys coincide with the
running account of unmatched registers. -/
theorem foldl_users_keys (es : List Ev) (st : ServerState)
    (h : freshOk st es = true) :
    (es.foldl stepState st).users.map Prod.fst =
      es.foldl pendingRegs (st.users.map Prod.fst) := by
  induction es generalizing st with
  | nil => rfl
  | cons e rest ih =>
    simp only [List.foldl_cons]
    cases e with
    | connect sid name now =>
      simp only [freshOk, Bool.and_eq_true] at h
      obtain ⟨h1, h2⟩ := h
      have hnone : usersGet st.users sid = none :=
        Option.isNone_iff_eq_none.mp h1
      rw [ih _ h2]
      congr 1
      simp only [stepState, step, connectionHandler, pendingRegs]
      rw [usersSet_of_absent st.users sid _ hnone]
      simp
    | sendMsg sid t f n =>
      simp only [freshOk, Bool.true_and] at h
      rw [ih _ h]
      congr 1
      simp only [stepState, pendingRegs]
      rw [show (step st (Ev.sendMsg sid t f n)).1.users = st.users from
        send_message_users st sid t f n]
    | voteMsg sid mid vt =>
      simp only [freshOk, Bool.true_and] at h
      rw [ih _ h]
      congr 1
      simp only [stepState, pendingRegs]
      rw [show (step st (Ev.voteMsg sid mid vt)).1.users = st.users from
        vote_message_users st sid mid vt]
    | disconnect sid =>
      simp only [freshOk, Bool.true_and] at h
      rw [ih _ h]
      congr 1
      simp only [stepState, step, disconnectHandler, pendingRegs]
      exact usersDelete_keys st.users sid

end Lemmas

/-- C1: in every reachable state, every stored message's score equals its
accepted up-votes minus its accepted down-votes, and its voters set holds
exactly one entry per accepted vote.  The ghost counters `ups`/`downs` of
the instrumented run count the accepted votes, and the instrumented run
projects onto the real one (first conjunct). -/
theorem score_voters_invariant (es : List Ev) :
    (run es).messages = (grun es).gmessages.map GMessage.msg ∧
    ∀ gm ∈ (grun es).gmessages,
      gm.msg.votes = (gm.ups : Int) - (gm.downs : Int) ∧
      gm.msg.voters.length = gm.ups + gm.downs := by
  refine ⟨?_, grun_GInv es⟩
  rw [← grun_proj es]
  rfl

/-- Witness for C1 at the concrete trace `esC1`. -/
theorem score_voters_invariant_witness :
    (run esC1).messages = (grun esC1).gmessages.map GMessage.msg ∧
    (gmW.msg.votes = (gmW.ups : Int) - (gmW.downs : Int) ∧
     gmW.msg.voters.length = gmW.ups + gmW.downs) :=
  ⟨(score_voters_invariant esC1).1,
   (score_voters_invariant esC1).2 gmW (by decide)⟩

/-- C2: once a vote by a voter on a message has been accepted, any later
`applyVote` by the same voter on that message — with either direction, and
after any interleaved votes by others — leaves score and voters unchanged. -/
theorem second_vote_noop (m : Message) (u vt vt2 : String)
    (later : List (String × String))
    (hdir : vt = "up" ∨ vt = "down") (_hnew : u ∉ m.voters) :
    applyVote
        (later.foldl (fun acc p => applyVote acc p.1 p.2) (applyVote m u vt))
        u vt2 =
      later.foldl (fun acc p => applyVote acc p.1 p.2) (applyVote m u vt) := by
  have h1 : u ∈ (applyVote m u vt).voters := self_mem_applyVote m u vt hdir
  have h2 : u ∈ (later.foldl (fun acc p => applyVote acc p.1 p.2)
      (applyVote m u vt)).voters :=
    mem_foldl_applyVote_voters later (applyVote m u vt) u h1
  exact applyVote_of_mem _ u vt2 h2

/-- Witness for C2: s2 up-votes, s3 down-votes, then s2 votes again. -/
theorem second_vote_noop_witness :
    applyVote
        ([("s3", "down")].foldl (fun acc p => applyVote acc p.1 p.2)
          (applyVote (testMsg "m1") "s2" "up")) "s2" "down" =
      [("s3", "down")].foldl (fun acc p => applyVote acc p.1 p.2)
        (applyVote (testMsg "m1") "s2" "up") :=
  second_vote_noop (testMsg "m1") "s2" "up" "down" [("s3", "down")]
    (Or.inl rfl) (by decide)

/-- C3: the store never exceeds 100 messages; an append at capacity yields
the previous list with index 0 removed and the new message at the end, and
once the evicted id is gone from the store, votes on it are dropped. -/
theorem store_capacity_fifo (es : List Ev) (st : ServerState) (sid : String)
    (user : User) (t : Option String) (f : String) (n : Nat) :
    (run es).messages.length ≤ 100 ∧
    (usersGet st.users sid = some user → st.messages.length = 100 →
      (send_message st sid t f n).1.messages =
        st.messages.tail ++ [newMessage user t f n] ∧
      (∀ m0, st.messages.head? = some m0 →
        m0.id ∉ ((send_message st sid t f n).1.messages).map Message.id →
        ∀ u vt, vote_message (send_message st sid t f n).1 u m0.id vt =
          ((send_message st sid t f n).1, []))) := by
  refine ⟨run_messages_length_le es, fun h hlen => ?_⟩
  have heq := send_message_of_some st sid user t f n h
  have hmsgs : (send_message st sid t f n).1.messages =
      st.messages.tail ++ [newMessage user t f n] := by
    rw [heq]
    show (if st.messages.length + 1 > 100 then (st.messages ++ [newMessage user t f n]).drop (st.messages.length + 1 - 100) else st.messages ++ [newMessage user t f n]) = st.messages.tail ++ [newMessage user t f n]
    rw [if_pos (by omega)]
    have h1 : st.messages.length + 1 - 100 = 1 := by omega
    rw [h1, List.drop_append_of_le_length (by omega), List.drop_one]
  refine ⟨hmsgs, ?_⟩
  intro m0 hhead hnotin u vt
  exact vote_message_of_find?_none _ u m0.id vt
    (find?_id_eq_none _ _ hnotin)

/-- Witness for C3 at the full store `stFull`: the append evicts message
"0", and a vote on "0" afterwards is dead. -/
theorem store_capacity_fifo_witness :
    (send_message stFull "s1" (some "x") "m100" 5).1.messages =
      stFull.messages.tail ++
        [newMessage { username := "SilentGuest1", joinedAt := 0 } (some "x") "m100" 5] ∧
    vote_message (send_message stFull "s1" (some "x") "m100" 5).1 "s9" "0" "up" =
      ((send_message stFull "s1" (some "x") "m100" 5).1, []) := by
  have h := (store_capacity_fifo [] stFull "s1"
    { username := "SilentGuest1", joinedAt := 0 } (some "x") "m100" 5).2 rfl rfl
  refine ⟨h.1, ?_⟩
  exact h.2 (testMsg "0") rfl (by decide) "s9" "up"

/-- C4 counterexample: a repeat vote by a recorded voter leaves the state
unchanged, yet a `message_updated` broadcast IS issued — the claim's "no
message_updated broadcast is issued" is false on the code. -/
theorem already_voted_still_broadcasts :
    (vote_message stVoted "s2" "m1" "up").1 = stVoted ∧
    (vote_message stVoted "s2" "m1" "up").2 =
      [(Target.all, Event.message_updated "m1" 1 ["s2"])] ∧
    (vote_message stVoted "s2" "m1" "up").2 ≠ [] := by decide

/-- C4 (amended): a vote whose voter is already recorded changes neither
the score nor the voters set, but the handler still broadcasts
`message_updated` carrying the unchanged values (the source emits
unconditionally once the message is found). -/
theorem already_voted_no_change (st : ServerState) (u mid vt : String)
    (m : Message)
    (hfind : st.messages.find? (fun x => x.id == mid) = some m)
    (hvoted : u ∈ m.voters) :
    vote_message st u mid vt =
      (st, [(Target.all, Event.message_updated m.id m.votes m.voters)]) :=
  vote_message_of_fix st u mid vt m hfind (applyVote_of_mem m u vt hvoted)

/-- Witness for the amended C4 at `stVoted`. -/
theorem already_voted_no_change_witness :
    vote_message stVoted "s2" "m1" "down" =
      (stVoted, [(Target.all, Event.message_updated "m1" 1 ["s2"])]) :=
  already_voted_no_change stVoted "s2" "m1" "down" votedMsg rfl (by decide)

/-- C5 counterexample: an empty-text send and a missing-text send are both
appended and broadcast, and a vote with an unrecognized voteType still
triggers a broadcast — the claim's "the event is dropped" is false on the
code. -/
theorem invalid_input_not_dropped :
    (send_message stOne "s1" (some "") "m2" 1).1.messages ≠ stOne.messages ∧
    (send_message stOne "s1" (some "") "m2" 1).2 ≠ [] ∧
    (send_message stOne "s1" none "m3" 1).1.messages ≠ stOne.messages ∧
    (send_message stOne "s1" none "m3" 1).2 ≠ [] ∧
    (vote_message stOne "s9" "m1" "sideways").2 ≠ [] := by decide

/-- C5 (amended): `send_message` performs no text validation — any text,
empty or missing included, is appended (with capacity trim) and broadcast;
`vote_message` with an unrecognized direction leaves the store unchanged
but still broadcasts `message_updated` with the unchanged values. -/
theorem invalid_input_behavior :
    (∀ (st : ServerState) (sid : String) (user : User) (t : Option String)
        (f : String) (n : Nat),
      usersGet st.users sid = some user →
      send_message st sid t f n =
        ({ st with messages := if st.messages.length + 1 > 100 then (st.messages ++ [newMessage user t f n]).drop (st.messages.length + 1 - 100) else st.messages ++ [newMessage user t f n] },
         [(Target.all, Event.new_message (newMessage user t f n))])) ∧
    (∀ (st : ServerState) (u mid vt : String) (m : Message),
      st.messages.find? (fun x => x.id == mid) = some m →
      vt ≠ "up" → vt ≠ "down" →
      vote_message st u mid vt =
        (st, [(Target.all, Event.message_updated m.id m.votes m.voters)])) := by
  constructor
  · intro st sid user t f n h
    exact send_message_of_some st sid user t f n h
  · intro st u mid vt m hfind h1 h2
    exact vote_message_of_fix st u mid vt m hfind
      (applyVote_of_invalid m u vt h1 h2)

/-- Witness for the amended C5: an empty-text send is appended and
broadcast; a "sideways" vote changes nothing but is broadcast. -/
theorem invalid_input_behavior_witness :
    send_message stOne "s1" (some "") "m2" 1 =
      ({ stOne with messages := stOne.messages ++ [newMessage { username := "SilentGuest1", joinedAt := 0 } (some "") "m2" 1] },
       [(Target.all, Event.new_message (newMessage { username := "SilentGuest1", joinedAt := 0 } (some "") "m2" 1))]) ∧
    vote_message stOne "s9" "m1" "sideways" =
      (stOne, [(Target.all, Event.message_updated "m1" 0 [])]) := by
  constructor
  · exact (invalid_input_behavior.1 stOne "s1"
      { username := "SilentGuest1", joinedAt := 0 } (some "") "m2" 1
      rfl).trans (by decide)
  · exact invalid_input_behavior.2 stOne "s9" "m1" "sideways" (testMsg "m1")
      rfl (by decide) (by decide)

/-- C6: a vote on a message id absent from the store (never existed or
evicted) changes no state and issues no broadcast. -/
theorem unknown_message_vote_dropped (st : ServerState) (u mid vt : String)
    (h : st.messages.find? (fun m => m.id == mid) = none) :
    vote_message st u mid vt = (st, []) :=
  vote_message_of_find?_none st u mid vt h

/-- Witness for C6: a vote on a bogus id. -/
theorem unknown_message_vote_dropped_witness :
    vote_message stOne "s1" "ghost" "up" = (stOne, []) :=
  unknown_message_vote_dropped stOne "s1" "ghost" "up" rfl

/-- C7: a send fails exactly when the author's session is unregistered (no
append, no broadcast); on success the constructed message has score 0, an
empty voters set and the author's registered pseudonym, and it is appended
(with capacity trim) and broadcast. -/
theorem send_unknown_session (st : ServerState) (sid : String)
    (t : Option String) (f : String) (n : Nat) :
    (usersGet st.users sid = none → send_message st sid t f n = (st, [])) ∧
    (∀ user, usersGet st.users sid = some user →
      (newMessage user t f n).votes = 0 ∧
      (newMessage user t f n).voters = [] ∧
      (newMessage user t f n).username = user.username ∧
      send_message st sid t f n =
        ({ st with messages := if st.messages.length + 1 > 100 then (st.messages ++ [newMessage user t f n]).drop (st.messages.length + 1 - 100) else st.messages ++ [newMessage user t f n] },
         [(Target.all, Event.new_message (newMessage user t f n))])) := by
  constructor
  · exact send_message_of_none st sid t f n
  · intro user h
    exact ⟨rfl, rfl, rfl, send_message_of_some st sid user t f n h⟩

/-- Witness for C7: an unregistered send is dropped, a registered one is
appended and broadcast. -/
theorem send_unknown_session_witness :
    send_message stOne "s9" (some "hi") "m7" 3 = (stOne, []) ∧
    send_message stOne "s1" (some "hi") "m7" 3 =
      ({ stOne with messages := stOne.messages ++ [newMessage { username := "SilentGuest1", joinedAt := 0 } (some "hi") "m7" 3] },
       [(Target.all, Event.new_message (newMessage { username := "SilentGuest1", joinedAt := 0 } (some "hi") "m7" 3))]) := by
  constructor
  · exact (send_unknown_session stOne "s9" (some "hi") "m7" 3).1 rfl
  · exact (((send_unknown_session stOne "s1" (some "hi") "m7" 3).2
      { username := "SilentGuest1", joinedAt := 0 } rfl).2.2.2).trans (by decide)

/-- C8: a disconnect removes only that session's registry entry — the
message store (scores and voters included) is untouched, entries with other
keys survive, and a later vote using the departed id produces exactly the
store change and emissions it would have produced before the disconnect,
i.e. it is evaluated purely against the message's voters set. -/
theorem disconnect_frame (st : ServerState) (sid u mid vt : String) :
    (disconnectHandler st sid).1.messages = st.messages ∧
    (disconnectHandler st sid).1.users = usersDelete st.users sid ∧
    (∀ p ∈ st.users, p.1 ≠ sid → p ∈ (disconnectHandler st sid).1.users) ∧
    (vote_message (disconnectHandler st sid).1 u mid vt).1.messages =
      (vote_message st u mid vt).1.messages ∧
    (vote_message (disconnectHandler st sid).1 u mid vt).2 =
      (vote_message st u mid vt).2 := by
  refine ⟨rfl, rfl, ?_, ?_, ?_⟩
  · intro p hp hne
    exact mem_usersDelete_of_ne st.users sid p hp hne
  · exact (vote_message_congr (disconnectHandler st sid).1 st u mid vt rfl).1
  · exact (vote_message_congr (disconnectHandler st sid).1 st u mid vt rfl).2

/-- Witness for C8: disconnecting "s9" keeps "s1" registered and leaves a
later vote unchanged. -/
theorem disconnect_frame_witness :
    (disconnectHandler stOne "s9").1.messages = stOne.messages ∧
    ("s1", { username := "SilentGuest1", joinedAt := 0 }) ∈
      (disconnectHandler stOne "s9").1.users ∧
    (vote_message (disconnectHandler stOne "s9").1 "s1" "m1" "up").2 =
      (vote_message stOne "s1" "m1" "up").2 := by
  have h := disconnect_frame stOne "s9" "s1" "m1" "up"
  exact ⟨h.1, h.2.2.1 _ (by decide) (by decide), h.2.2.2.2⟩

/-- C9: along any transport-fresh trace the registry size equals the number
of register calls not yet matched by a deregister of the same session id,
and deregistering an id absent from the registry is a no-op on the whole
state (hence on the count). -/
theorem registry_count_invariant (es : List Ev) (st : ServerState)
    (sid : String) (h : freshOk initState es = true)
    (habs : usersGet st.users sid = none) :
    (run es).users.length = (pending es).length ∧
    (disconnectHandler st sid).1 = st := by
  constructor
  · have hk : (run es).users.map Prod.fst = pending es :=
      foldl_users_keys es initState h
    calc (run es).users.length
        = ((run es).users.map Prod.fst).length := (List.length_map _ _).symm
      _ = (pending es).length := by rw [hk]
  · show ({ st with users := usersDelete st.users sid } : ServerState) = st
    rw [usersDelete_of_absent st.users sid habs]

/-- Witness for C9 at the trace `esW` (the repeated disconnect of "a" is
unmatched) and an absent-key deregister on `stOne`. -/
theorem registry_count_invariant_witness :
    freshOk initState esW = true ∧
    ((run esW).users.length = (pending esW).length ∧
     (disconnectHandler stOne "zz").1 = stOne) :=
  ⟨by decide, registry_count_invariant esW stOne "zz" (by decide) rfl⟩

/-- C10: `applyVote` never consults the author — its effect on score and
voters is a function of the previous score and voters only, so the
authoring session's own first vote on its message is accepted and scored
like any other first vote. -/
theorem self_vote_counted :
    (∀ (m1 m2 : Message) (u vt : String),
      m1.votes = m2.votes → m1.voters = m2.voters →
      (applyVote m1 u vt).votes = (applyVote m2 u vt).votes ∧
      (applyVote m1 u vt).voters = (applyVote m2 u vt).voters) ∧
    (∀ (m : Message) (u : String), u ∉ m.voters →
      applyVote m u "up" =
        { m with votes := m.votes + 1, voters := m.voters ++ [u] } ∧
      applyVote m u "down" =
        { m with votes := m.votes - 1, voters := m.voters ++ [u] }) := by
  constructor
  · intro m1 m2 u vt h1 h2
    simp only [applyVote]
    rw [h1, h2]
    split
    · exact ⟨rfl, rfl⟩
    · split
      · exact ⟨rfl, rfl⟩
      · exact ⟨h1, h2⟩
  · intro m u h
    exact ⟨applyVote_up m u h, applyVote_down m u h⟩

/-- Witness for C10: the session that authored a message ("s1", pseudonym
"GhostUser1") up-votes it; the vote is counted. -/
theorem self_vote_counted_witness :
    applyVote { id := "m1", text := some "hi", username := "GhostUser1", timestamp := 1, votes := 0, voters := [] } "s1" "up" =
      { id := "m1", text := some "hi", username := "GhostUser1", timestamp := 1, votes := 1, voters := ["s1"] } := by
  have h := (self_vote_counted.2
    { id := "m1", text := some "hi", username := "GhostUser1", timestamp := 1, votes := 0, voters := [] }
    "s1" (by decide)).1
  exact h.trans (by decide)

end AnonChat
